import Mathlib

set_option maxHeartbeats 1000000
set_option maxRecDepth 8000

/-!
# Verification of the slskrr core against its specification

This development embeds the core of the slskrr repository (Go) into Lean:

* the identity-token codec (`EncodeToken` / `DecodeToken` from
  `newznab/handler.go`), together with the parts of the Go standard
  library they rely on (URL-safe base64 with padding, UTF-8 byte
  encoding, and `encoding/json` marshalling/unmarshalling restricted to
  the `FileToken` shape);
* the in-memory transfer registry (`store/store.go`): the `Download`
  record and the operations `Add`, `Get`, `UpdateTransfer`,
  `IncrementRetry`, `Remove`, `Queue`, `History`, `All`, `FindByFile`;
* the reconciliation pass `syncOnce` (`sabnzbd` handler) together with
  its backend-state-string to status mapping;
* the adaptive poll-delay function `adaptiveDelay` (`slskd/client.go`),
  with Go `float64` arithmetic modelled by exact rationals (every
  constant appearing in the code and the claims is exactly
  representable in binary floating point, so the sampled values agree).

Go `string` values are modelled as Lean `String` (sequences of Unicode
scalar values); `int64` as `Int`; `time.Time` as `Nat` with the zero
value of `time.Time` modelled as `Option.none`.
-/

namespace Slskrr

/-! ## Base64, URL-safe alphabet with padding

Model of Go `encoding/base64` `URLEncoding` (`EncodeToString` and
`DecodeString`) as used by the token codec.  Bytes are `Nat` values
below 256.  The decoder first discards embedded CR and LF characters,
as Go's decoder does, then accepts padding only in the final quantum,
and like Go's (non-Strict) decoder it ignores trailing bits. -/

/-- The URL-safe base64 alphabet: value `v < 64` to character. -/
def b64Char (v : Nat) : Char :=
  if v < 26 then Char.ofNat (65 + v)
  else if v < 52 then Char.ofNat (97 + (v - 26))
  else if v < 62 then Char.ofNat (48 + (v - 52))
  else if v = 62 then '-'
  else '_'

/-- Inverse alphabet lookup: character to value, `none` off-alphabet. -/
def b64Val (c : Char) : Option Nat :=
  if 65 ≤ c.toNat ∧ c.toNat ≤ 90 then some (c.toNat - 65)
  else if 97 ≤ c.toNat ∧ c.toNat ≤ 122 then some (26 + (c.toNat - 97))
  else if 48 ≤ c.toNat ∧ c.toNat ≤ 57 then some (52 + (c.toNat - 48))
  else if c = '-' then some 62
  else if c = '_' then some 63
  else none

/-- Base64 encoding of a byte list, three bytes to four characters,
with `=` padding, as in Go `base64.URLEncoding.EncodeToString`. -/
def b64Encode : List Nat → List Char
  | [] => []
  | [b0] => [b64Char (b0 / 4), b64Char (b0 % 4 * 16), '=', '=']
  | [b0, b1] => [b64Char (b0 / 4), b64Char (b0 % 4 * 16 + b1 / 16),
      b64Char (b1 % 16 * 4), '=']
  | b0 :: b1 :: b2 :: rest =>
      b64Char (b0 / 4) :: b64Char (b0 % 4 * 16 + b1 / 16) ::
      b64Char (b1 % 16 * 4 + b2 / 64) :: b64Char (b2 % 64) :: b64Encode rest

/-- The quantum decoder: input length must be a multiple of four,
padding may occur only at the end, off-alphabet characters are
rejected. -/
def b64DecodeQuanta : List Char → Option (List Nat)
  | [] => some []
  | c0 :: c1 :: c2 :: c3 :: rest =>
      if c3 = '=' then
        if rest = [] then
          if c2 = '=' then
            match b64Val c0, b64Val c1 with
            | some v0, some v1 => some [v0 * 4 + v1 / 16]
            | _, _ => none
          else
            match b64Val c0, b64Val c1, b64Val c2 with
            | some v0, some v1, some v2 =>
                some [v0 * 4 + v1 / 16, v1 % 16 * 16 + v2 / 4]
            | _, _, _ => none
        else none
      else
        match b64Val c0, b64Val c1, b64Val c2, b64Val c3, b64DecodeQuanta rest with
        | some v0, some v1, some v2, some v3, some tail =>
            some ((v0 * 4 + v1 / 16) :: (v1 % 16 * 16 + v2 / 4) ::
              (v2 % 4 * 64 + v3) :: tail)
        | _, _, _, _, _ => none
  | _ => none

/-- Go's base64 decoder discards embedded carriage returns and line
feeds before decoding. -/
def stripNewlines (cs : List Char) : List Char :=
  cs.filter (fun c => ! (c == '\r' || c == '\n'))

/-- Go `base64.URLEncoding.DecodeString`. -/
def b64Decode (cs : List Char) : Option (List Nat) :=
  b64DecodeQuanta (stripNewlines cs)

theorem b64Val_b64Char : ∀ v < 64, b64Val (b64Char v) = some v := by decide

theorem b64Char_ne_pad : ∀ v < 64, b64Char v ≠ '=' := by decide

theorem b64Char_not_newline : ∀ v < 64, (! (b64Char v == '\r' || b64Char v == '\n')) = true := by
  decide

theorem b64DecodeQuanta_roundtrip : ∀ (bs : List Nat), (∀ b ∈ bs, b < 256) →
    b64DecodeQuanta (b64Encode bs) = some bs
  | [], _ => rfl
  | [b0], h => by
    have hb0 : b0 < 256 := h b0 (by simp)
    simp only [b64Encode, b64DecodeQuanta,
      b64Val_b64Char (b0 / 4) (by omega), b64Val_b64Char (b0 % 4 * 16) (by omega)]
    simp only [Option.some.injEq, List.cons.injEq, and_true, if_true, reduceIte]
    omega
  | [b0, b1], h => by
    have hb0 : b0 < 256 := h b0 (by simp)
    have hb1 : b1 < 256 := h b1 (by simp)
    simp only [b64Encode, b64DecodeQuanta,
      if_neg (b64Char_ne_pad (b1 % 16 * 4) (by omega)),
      b64Val_b64Char (b0 / 4) (by omega),
      b64Val_b64Char (b0 % 4 * 16 + b1 / 16) (by omega),
      b64Val_b64Char (b1 % 16 * 4) (by omega)]
    simp only [Option.some.injEq, List.cons.injEq, and_true, if_true, reduceIte]
    omega
  | b0 :: b1 :: b2 :: rest, h => by
    have hb0 : b0 < 256 := h b0 (by simp)
    have hb1 : b1 < 256 := h b1 (by simp)
    have hb2 : b2 < 256 := h b2 (by simp)
    have ih := b64DecodeQuanta_roundtrip rest (fun b hb => h b (by simp [hb]))
    simp only [b64Encode, b64DecodeQuanta, if_neg (b64Char_ne_pad (b2 % 64) (by omega)),
      b64Val_b64Char (b0 / 4) (by omega),
      b64Val_b64Char (b0 % 4 * 16 + b1 / 16) (by omega),
      b64Val_b64Char (b1 % 16 * 4 + b2 / 64) (by omega),
      b64Val_b64Char (b2 % 64) (by omega), ih]
    simp only [Option.some.injEq, List.cons.injEq, and_true]
    refine ⟨by omega, by omega, by omega⟩

theorem b64Encode_no_newline : ∀ (bs : List Nat), (∀ b ∈ bs, b < 256) →
    ∀ c ∈ b64Encode bs, (! (c == '\r' || c == '\n')) = true
  | [], _ => by simp [b64Encode]
  | [b0], h => by
    have hb0 : b0 < 256 := h b0 (by simp)
    intro c hc
    simp only [b64Encode, List.mem_cons, List.not_mem_nil, or_false] at hc
    rcases hc with hc | hc | hc | hc
    · rw [hc]
      exact b64Char_not_newline (b0 / 4) (by omega)
    · rw [hc]
      exact b64Char_not_newline (b0 % 4 * 16) (by omega)
    · rw [hc]
      decide
    · rw [hc]
      decide
  | [b0, b1], h => by
    have hb0 : b0 < 256 := h b0 (by simp)
    have hb1 : b1 < 256 := h b1 (by simp)
    intro c hc
    simp only [b64Encode, List.mem_cons, List.not_mem_nil, or_false] at hc
    rcases hc with hc | hc | hc | hc
    · rw [hc]
      exact b64Char_not_newline (b0 / 4) (by omega)
    · rw [hc]
      exact b64Char_not_newline (b0 % 4 * 16 + b1 / 16) (by omega)
    · rw [hc]
      exact b64Char_not_newline (b1 % 16 * 4) (by omega)
    · rw [hc]
      decide
  | b0 :: b1 :: b2 :: rest, h => by
    have hb0 : b0 < 256 := h b0 (by simp)
    have hb1 : b1 < 256 := h b1 (by simp)
    have hb2 : b2 < 256 := h b2 (by simp)
    have ih := b64Encode_no_newline rest (fun b hb => h b (by simp [hb]))
    intro c hc
    simp only [b64Encode, List.mem_cons] at hc
    rcases hc with hc | hc | hc | hc | hc
    · rw [hc]
      exact b64Char_not_newline (b0 / 4) (by omega)
    · rw [hc]
      exact b64Char_not_newline (b0 % 4 * 16 + b1 / 16) (by omega)
    · rw [hc]
      exact b64Char_not_newline (b1 % 16 * 4 + b2 / 64) (by omega)
    · rw [hc]
      exact b64Char_not_newline (b2 % 64) (by omega)
    · exact ih c hc

theorem b64_roundtrip (bs : List Nat) (h : ∀ b ∈ bs, b < 256) :
    b64Decode (b64Encode bs) = some bs := by
  unfold b64Decode stripNewlines
  rw [List.filter_eq_self.mpr (b64Encode_no_newline bs h)]
  exact b64DecodeQuanta_roundtrip bs h

/-! ## UTF-8

Go strings are UTF-8 encoded byte sequences; `json.Marshal` emits the
UTF-8 bytes of the JSON text and `json.Unmarshal` reads them back.
`utf8EncodeCp` encodes one Unicode scalar value; `utf8Decode` is the
strict decoder (it rejects overlong forms, surrogates and codepoints
above U+10FFFF, which never arise from encoded tokens). -/

/-- UTF-8 encoding of a single codepoint `n < 0x110000`. -/
def utf8EncodeCp (n : Nat) : List Nat :=
  if n < 0x80 then [n]
  else if n < 0x800 then [0xC0 + n / 64, 0x80 + n % 64]
  else if n < 0x10000 then [0xE0 + n / 4096, 0x80 + n / 64 % 64, 0x80 + n % 64]
  else [0xF0 + n / 262144, 0x80 + n / 4096 % 64, 0x80 + n / 64 % 64, 0x80 + n % 64]

/-- UTF-8 encoding of a character sequence. -/
def utf8Encode : List Char → List Nat
  | [] => []
  | c :: cs => utf8EncodeCp c.toNat ++ utf8Encode cs

/-- Whether a byte is a UTF-8 continuation byte. -/
def isCont (b : Nat) : Prop := 0x80 ≤ b ∧ b < 0xC0

instance (b : Nat) : Decidable (isCont b) := by unfold isCont; infer_instance

/-- Strict UTF-8 decoding of a byte sequence into characters. -/
def utf8Decode : List Nat → Option (List Char)
  | [] => some []
  | b :: bs =>
    if b < 0x80 then
      (utf8Decode bs).map (fun cs => Char.ofNat b :: cs)
    else
      match bs with
      | [] => none
      | b1 :: bs1 =>
        if b < 0xC2 then none
        else if b < 0xE0 then
          if isCont b1 then
            (utf8Decode bs1).map (fun cs => Char.ofNat ((b - 0xC0) * 64 + (b1 - 0x80)) :: cs)
          else none
        else
          match bs1 with
          | [] => none
          | b2 :: bs2 =>
            if b < 0xF0 then
              if isCont b1 ∧ isCont b2 then
                let n := (b - 0xE0) * 4096 + (b1 - 0x80) * 64 + (b2 - 0x80)
                if 0x800 ≤ n ∧ (n < 0xD800 ∨ 0xDFFF < n) then
                  (utf8Decode bs2).map (fun cs => Char.ofNat n :: cs)
                else none
              else none
            else
              match bs2 with
              | [] => none
              | b3 :: bs3 =>
                if b < 0xF5 then
                  if isCont b1 ∧ isCont b2 ∧ isCont b3 then
                    let n := (b - 0xF0) * 262144 + (b1 - 0x80) * 4096 +
                      (b2 - 0x80) * 64 + (b3 - 0x80)
                    if 0x10000 ≤ n ∧ n < 0x110000 then
                      (utf8Decode bs3).map (fun cs => Char.ofNat n :: cs)
                    else none
                  else none
                else none

theorem char_toNat_valid (c : Char) :
    c.toNat < 0xD800 ∨ (0xDFFF < c.toNat ∧ c.toNat < 0x110000) := by
  have h := c.valid
  unfold UInt32.isValidChar Nat.isValidChar at h
  exact h

theorem utf8EncodeCp_lt_256 (n : Nat) (h : n < 0x110000) :
    ∀ b ∈ utf8EncodeCp n, b < 256 := by
  unfold utf8EncodeCp
  split
  · intro b hb; simp at hb; omega
  · split
    · intro b hb; simp at hb; rcases hb with h1 | h1 <;> omega
    · split
      · intro b hb; simp at hb; rcases hb with h1 | h1 | h1 <;> omega
      · intro b hb; simp at hb; rcases hb with h1 | h1 | h1 | h1 <;> omega

theorem utf8Encode_lt_256 : ∀ (cs : List Char), ∀ b ∈ utf8Encode cs, b < 256
  | [], b, hb => by simp [utf8Encode] at hb
  | c :: cs, b, hb => by
    simp only [utf8Encode, List.mem_append] at hb
    rcases hb with h1 | h1
    · have hv := char_toNat_valid c
      exact utf8EncodeCp_lt_256 c.toNat (by omega) b h1
    · exact utf8Encode_lt_256 cs b h1

theorem utf8Decode_encodeCp (n : Nat)
    (hval : n < 0xD800 ∨ (0xDFFF < n ∧ n < 0x110000)) (bs : List Nat) :
    utf8Decode (utf8EncodeCp n ++ bs) =
      (utf8Decode bs).map (fun cs => Char.ofNat n :: cs) := by
  have hub : n < 0x110000 := by rcases hval with h | h <;> omega
  have hsur : n < 0xD800 ∨ 0xDFFF < n := hval.imp id And.left
  unfold utf8EncodeCp
  by_cases h1 : n < 0x80
  · rw [if_pos h1]
    simp only [List.cons_append, List.nil_append]
    conv_lhs => unfold utf8Decode
    rw [if_pos h1]
  · rw [if_neg h1]
    by_cases h2 : n < 0x800
    · rw [if_pos h2]
      simp only [List.cons_append, List.nil_append]
      conv_lhs => unfold utf8Decode
      rw [if_neg (by omega)]
      try dsimp only
      rw [if_neg (by omega), if_pos (by omega),
        if_pos (show isCont (0x80 + n % 64) by unfold isCont; omega)]
      rw [show (0xC0 + n / 64 - 0xC0) * 64 + (0x80 + n % 64 - 0x80) = n from by omega]
    · rw [if_neg h2]
      by_cases h3 : n < 0x10000
      · rw [if_pos h3]
        simp only [List.cons_append, List.nil_append]
        conv_lhs => unfold utf8Decode
        rw [if_neg (by omega)]
        try dsimp only
        rw [if_neg (by omega), if_neg (by omega)]
        try dsimp only
        rw [if_pos (by omega),
          if_pos (show isCont (0x80 + n / 64 % 64) ∧ isCont (0x80 + n % 64) by
            unfold isCont; omega)]
        rw [show (0xE0 + n / 4096 - 0xE0) * 4096 + (0x80 + n / 64 % 64 - 0x80) * 64 +
            (0x80 + n % 64 - 0x80) = n from by omega]
        rw [if_pos (show 0x800 ≤ n ∧ (n < 0xD800 ∨ 0xDFFF < n) from ⟨by omega, hsur⟩)]
      · rw [if_neg h3]
        simp only [List.cons_append, List.nil_append]
        conv_lhs => unfold utf8Decode
        rw [if_neg (by omega)]
        try dsimp only
        rw [if_neg (by omega), if_neg (by omega)]
        try dsimp only
        rw [if_neg (by omega)]
        try dsimp only
        rw [if_pos (by omega),
          if_pos (show isCont (0x80 + n / 4096 % 64) ∧ isCont (0x80 + n / 64 % 64) ∧
            isCont (0x80 + n % 64) by unfold isCont; omega)]
        rw [show (0xF0 + n / 262144 - 0xF0) * 262144 + (0x80 + n / 4096 % 64 - 0x80) * 4096 +
            (0x80 + n / 64 % 64 - 0x80) * 64 + (0x80 + n % 64 - 0x80) = n from by omega]
        rw [if_pos (show 0x10000 ≤ n ∧ n < 0x110000 from ⟨by omega, hub⟩)]

theorem utf8_roundtrip : ∀ (cs : List Char), utf8Decode (utf8Encode cs) = some cs
  | [] => rfl
  | c :: cs => by
    have ih := utf8_roundtrip cs
    simp only [utf8Encode]
    rw [utf8Decode_encodeCp c.toNat (char_toNat_valid c) (utf8Encode cs), ih]
    simp [Char.ofNat_toNat]

/-! ## JSON text for the token object

`EncodeToken` marshals `FileToken{Username, Filename, Size}` with
`json.Marshal`, producing the object text with keys `u`, `f`, `s` in
struct order; `DecodeToken` unmarshals it.  We embed Go's string
escaping (`encoding/json` with its default HTML escaping: quote,
backslash, control characters, `<`, `>`, `&`, U+2028, U+2029) and a
recursive-descent reader of the same shape as Go's decoder.  The
reader is restricted to what the `FileToken` shape exercises: it
matches keys exactly (Go additionally falls back to case-insensitive
matching), it rejects lone surrogate `\u` escapes (Go substitutes
U+FFFD), and under unknown keys it accepts only scalar values. -/

/-- Lowercase hex digit, as emitted by Go `encoding/json`. -/
def hexChar (v : Nat) : Char := if v < 10 then Char.ofNat (48 + v) else Char.ofNat (87 + v)

/-- Hex digit value (either case accepted, as in Go's decoder). -/
def hexVal (c : Char) : Option Nat :=
  if 48 ≤ c.toNat ∧ c.toNat ≤ 57 then some (c.toNat - 48)
  else if 97 ≤ c.toNat ∧ c.toNat ≤ 102 then some (c.toNat - 87)
  else if 65 ≤ c.toNat ∧ c.toNat ≤ 70 then some (c.toNat - 55)
  else none

theorem hexVal_hexChar : ∀ v < 16, hexVal (hexChar v) = some v := by decide

/-- Go `encoding/json` escaping of one character of a string value. -/
def escapeChar (c : Char) : List Char :=
  if c = '"' then ['\\', '"']
  else if c = '\\' then ['\\', '\\']
  else if c = '\n' then ['\\', 'n']
  else if c = '\r' then ['\\', 'r']
  else if c = '\t' then ['\\', 't']
  else if c.toNat < 0x20 then ['\\', 'u', '0', '0', hexChar (c.toNat / 16), hexChar (c.toNat % 16)]
  else if c = '<' then ['\\', 'u', '0', '0', '3', 'c']
  else if c = '>' then ['\\', 'u', '0', '0', '3', 'e']
  else if c = '&' then ['\\', 'u', '0', '0', '2', '6']
  else if c.toNat = 0x2028 then ['\\', 'u', '2', '0', '2', '8']
  else if c.toNat = 0x2029 then ['\\', 'u', '2', '0', '2', '9']
  else [c]

/-- Escaping of a whole string body. -/
def escapeList : List Char → List Char
  | [] => []
  | c :: cs => escapeChar c ++ escapeList cs

/-- Read a JSON string body up to and including the closing quote,
returning the decoded content and the remaining input.  Surrogate
unicode escapes are rejected here, whereas Go's unquoting combines a
high/low pair into one character and substitutes U+FFFD for a lone
surrogate; no theorem in this file quantifies over inputs containing
such escapes (the escaper never emits them). -/
def parseJStringBody : List Char → Option (List Char × List Char)
  | [] => none
  | c :: rest =>
    if c = '"' then some ([], rest)
    else if c = '\\' then
      match rest with
      | [] => none
      | e :: rest1 =>
        if e = '"' then (parseJStringBody rest1).map (fun pr => ('"' :: pr.1, pr.2))
        else if e = '\\' then (parseJStringBody rest1).map (fun pr => ('\\' :: pr.1, pr.2))
        else if e = '/' then (parseJStringBody rest1).map (fun pr => ('/' :: pr.1, pr.2))
        else if e = 'b' then (parseJStringBody rest1).map (fun pr => (Char.ofNat 8 :: pr.1, pr.2))
        else if e = 'f' then (parseJStringBody rest1).map (fun pr => (Char.ofNat 12 :: pr.1, pr.2))
        else if e = 'n' then (parseJStringBody rest1).map (fun pr => ('\n' :: pr.1, pr.2))
        else if e = 'r' then (parseJStringBody rest1).map (fun pr => ('\r' :: pr.1, pr.2))
        else if e = 't' then (parseJStringBody rest1).map (fun pr => ('\t' :: pr.1, pr.2))
        else if e = 'u' then
          match rest1 with
          | h0 :: h1 :: h2 :: h3 :: rest2 =>
            match hexVal h0, hexVal h1, hexVal h2, hexVal h3 with
            | some v0, some v1, some v2, some v3 =>
              if v0 * 4096 + v1 * 256 + v2 * 16 + v3 < 0xD800 ∨
                  0xDFFF < v0 * 4096 + v1 * 256 + v2 * 16 + v3 then
                (parseJStringBody rest2).map
                  (fun pr => (Char.ofNat (v0 * 4096 + v1 * 256 + v2 * 16 + v3) :: pr.1, pr.2))
              else none
            | _, _, _, _ => none
          | _ => none
        else none
    else if c.toNat < 0x20 then none
    else (parseJStringBody rest).map (fun pr => (c :: pr.1, pr.2))

theorem parse_escapeList : ∀ (cs rest : List Char),
    parseJStringBody (escapeList cs ++ '"' :: rest) = some (cs, rest)
  | [], rest => by
    simp only [escapeList, List.nil_append]
    conv_lhs => unfold parseJStringBody
    rw [if_pos rfl]
  | c :: cs, rest => by
    have ih := parse_escapeList cs rest
    simp only [escapeList, List.append_assoc]
    unfold escapeChar
    split_ifs with h1 h2 h3 h4 h5 h6 h7 h8 h9 h10 h11
    · subst h1
      simp only [List.cons_append, List.nil_append]
      conv_lhs => unfold parseJStringBody
      rw [if_neg (by decide), if_pos rfl]
      try dsimp only
      rw [if_pos rfl, ih]
      rfl
    · subst h2
      simp only [List.cons_append, List.nil_append]
      conv_lhs => unfold parseJStringBody
      rw [if_neg (by decide), if_pos rfl]
      try dsimp only
      rw [if_neg (by decide), if_pos rfl, ih]
      rfl
    · subst h3
      simp only [List.cons_append, List.nil_append]
      conv_lhs => unfold parseJStringBody
      rw [if_neg (by decide), if_pos rfl]
      try dsimp only
      rw [if_neg (by decide), if_neg (by decide), if_neg (by decide), if_neg (by decide),
        if_neg (by decide), if_pos rfl, ih]
      rfl
    · subst h4
      simp only [List.cons_append, List.nil_append]
      conv_lhs => unfold parseJStringBody
      rw [if_neg (by decide), if_pos rfl]
      try dsimp only
      rw [if_neg (by decide), if_neg (by decide), if_neg (by decide), if_neg (by decide),
        if_neg (by decide), if_neg (by decide), if_pos rfl, ih]
      rfl
    · subst h5
      simp only [List.cons_append, List.nil_append]
      conv_lhs => unfold parseJStringBody
      rw [if_neg (by decide), if_pos rfl]
      try dsimp only
      rw [if_neg (by decide), if_neg (by decide), if_neg (by decide), if_neg (by decide),
        if_neg (by decide), if_neg (by decide), if_neg (by decide), if_pos rfl, ih]
      rfl
    · simp only [List.cons_append, List.nil_append]
      conv_lhs => unfold parseJStringBody
      rw [if_neg (by decide), if_pos rfl]
      try dsimp only
      rw [if_neg (by decide), if_neg (by decide), if_neg (by decide), if_neg (by decide),
        if_neg (by decide), if_neg (by decide), if_neg (by decide), if_neg (by decide),
        if_pos rfl]
      try dsimp only
      rw [show hexVal '0' = some 0 from by decide,
        hexVal_hexChar (c.toNat / 16) (by omega),
        hexVal_hexChar (c.toNat % 16) (by omega)]
      try dsimp only
      rw [if_pos (Or.inl (by omega)), ih]
      try dsimp only
      rw [show 0 * 4096 + 0 * 256 + c.toNat / 16 * 16 + c.toNat % 16 = c.toNat from by omega,
        Char.ofNat_toNat]
      rfl
    · subst h7
      simp only [List.cons_append, List.nil_append]
      conv_lhs => unfold parseJStringBody
      rw [if_neg (by decide), if_pos rfl]
      try dsimp only
      rw [if_neg (by decide), if_neg (by decide), if_neg (by decide), if_neg (by decide),
        if_neg (by decide), if_neg (by decide), if_neg (by decide), if_neg (by decide),
        if_pos rfl]
      try dsimp only
      rw [show hexVal '0' = some 0 from by decide, show hexVal '3' = some 3 from by decide,
        show hexVal 'c' = some 12 from by decide]
      try dsimp only
      rw [if_pos (Or.inl (by omega)), ih]
      rfl
    · subst h8
      simp only [List.cons_append, List.nil_append]
      conv_lhs => unfold parseJStringBody
      rw [if_neg (by decide), if_pos rfl]
      try dsimp only
      rw [if_neg (by decide), if_neg (by decide), if_neg (by decide), if_neg (by decide),
        if_neg (by decide), if_neg (by decide), if_neg (by decide), if_neg (by decide),
        if_pos rfl]
      try dsimp only
      rw [show hexVal '0' = some 0 from by decide, show hexVal '3' = some 3 from by decide,
        show hexVal 'e' = some 14 from by decide]
      try dsimp only
      rw [if_pos (Or.inl (by omega)), ih]
      rfl
    · subst h9
      simp only [List.cons_append, List.nil_append]
      conv_lhs => unfold parseJStringBody
      rw [if_neg (by decide), if_pos rfl]
      try dsimp only
      rw [if_neg (by decide), if_neg (by decide), if_neg (by decide), if_neg (by decide),
        if_neg (by decide), if_neg (by decide), if_neg (by decide), if_neg (by decide),
        if_pos rfl]
      try dsimp only
      rw [show hexVal '0' = some 0 from by decide, show hexVal '2' = some 2 from by decide,
        show hexVal '6' = some 6 from by decide]
      try dsimp only
      rw [if_pos (Or.inl (by omega)), ih]
      rfl
    · simp only [List.cons_append, List.nil_append]
      conv_lhs => unfold parseJStringBody
      rw [if_neg (by decide), if_pos rfl]
      try dsimp only
      rw [if_neg (by decide), if_neg (by decide), if_neg (by decide), if_neg (by decide),
        if_neg (by decide), if_neg (by decide), if_neg (by decide), if_neg (by decide),
        if_pos rfl]
      try dsimp only
      rw [show hexVal '2' = some 2 from by decide, show hexVal '0' = some 0 from by decide,
        show hexVal '8' = some 8 from by decide]
      try dsimp only
      rw [if_pos (Or.inl (by omega)), ih]
      try dsimp only
      rw [show (2 : Nat) * 4096 + 0 * 256 + 2 * 16 + 8 = c.toNat from by omega,
        Char.ofNat_toNat]
      rfl
    · simp only [List.cons_append, List.nil_append]
      conv_lhs => unfold parseJStringBody
      rw [if_neg (by decide), if_pos rfl]
      try dsimp only
      rw [if_neg (by decide), if_neg (by decide), if_neg (by decide), if_neg (by decide),
        if_neg (by decide), if_neg (by decide), if_neg (by decide), if_neg (by decide),
        if_pos rfl]
      try dsimp only
      rw [show hexVal '2' = some 2 from by decide, show hexVal '0' = some 0 from by decide,
        show hexVal '9' = some 9 from by decide]
      try dsimp only
      rw [if_pos (Or.inl (by omega)), ih]
      try dsimp only
      rw [show (2 : Nat) * 4096 + 0 * 256 + 2 * 16 + 9 = c.toNat from by omega,
        Char.ofNat_toNat]
      rfl
    · simp only [List.cons_append, List.nil_append]
      conv_lhs => unfold parseJStringBody
      rw [if_neg h1, if_neg h2, if_neg (by omega), ih]
      rfl

/-! ## Decimal integers

Go marshals the `int64` field with `strconv.AppendInt` (decimal,
optional leading minus); the decoder reads an optional minus followed
by decimal digits (`strconv.ParseInt` on the number literal; fractional
or exponent forms fail to convert to `int64`). -/

/-- Decimal digit character. -/
def digitChar (v : Nat) : Char := Char.ofNat (48 + v)

/-- Whether a character is a decimal digit. -/
def isDigit (c : Char) : Prop := 48 ≤ c.toNat ∧ c.toNat ≤ 57

instance (c : Char) : Decidable (isDigit c) := by unfold isDigit; infer_instance

theorem char_toNat_ofNat_valid (n : Nat) (h : n.isValidChar) : (Char.ofNat n).toNat = n := by
  unfold Char.ofNat
  rw [dif_pos h]
  rfl

/-- Decimal digit string of a natural number, most significant first. -/
def natDigs (n : Nat) : List Char :=
  if n < 10 then [digitChar n] else natDigs (n / 10) ++ [digitChar (n % 10)]
termination_by n
decreasing_by exact Nat.div_lt_self (by omega) (by omega)

/-- Go `strconv.AppendInt` in base 10. -/
def intChars (i : Int) : List Char :=
  if i < 0 then '-' :: natDigs i.natAbs else natDigs i.natAbs

/-- Consume leading decimal digits, accumulating their value. -/
def parseDigits : List Char → Nat → (Nat × List Char)
  | [], acc => (acc, [])
  | c :: cs, acc =>
    if isDigit c then parseDigits cs (acc * 10 + (c.toNat - 48)) else (acc, c :: cs)

/-- Whether a character list starts with a decimal digit. -/
def headDigitB : List Char → Bool
  | c :: _ => decide (isDigit c)
  | [] => false

/-- Read a decimal integer: optional minus sign, then digits, with
the JSON grammar's leading-zero restriction (the scanner rejects
`00`, `01`, ...).  Values are unbounded here (`int64` is modelled as
`Int`); Go additionally fails on values outside the int64 range via
`strconv.ParseInt`, which theorems parsing numbers reflect as
explicit int64-range hypotheses. -/
def parseIntChars : List Char → Option (Int × List Char)
  | [] => none
  | c :: cs =>
    if c = '-' then
      match cs with
      | [] => none
      | d :: ds =>
        if isDigit d then
          if d = '0' ∧ headDigitB ds = true then none
          else some ((- ((parseDigits (d :: ds) 0).1 : Int), (parseDigits (d :: ds) 0).2))
        else none
    else if isDigit c then
      if c = '0' ∧ headDigitB cs = true then none
      else some ((((parseDigits (c :: cs) 0).1 : Int), (parseDigits (c :: cs) 0).2))
    else none

theorem isDigit_digitChar (v : Nat) (h : v < 10) : isDigit (digitChar v) := by
  unfold isDigit digitChar
  rw [char_toNat_ofNat_valid (48 + v) (Or.inl (by omega))]
  omega

theorem toNat_digitChar (v : Nat) (h : v < 10) : (digitChar v).toNat = 48 + v := by
  unfold digitChar
  exact char_toNat_ofNat_valid (48 + v) (Or.inl (by omega))

theorem parseDigits_natDigs : ∀ (n acc : Nat) (rest : List Char),
    parseDigits (natDigs n ++ rest) acc =
      parseDigits rest (acc * 10 ^ (natDigs n).length + n) := by
  intro n
  induction n using Nat.strong_induction_on with
  | _ n ih =>
    intro acc rest
    by_cases h : n < 10
    · rw [natDigs, if_pos h]
      simp only [List.cons_append, List.nil_append, List.length_cons, List.length_nil]
      conv_lhs => unfold parseDigits
      rw [if_pos (isDigit_digitChar n h), toNat_digitChar n h]
      have : acc * 10 + (48 + n - 48) = acc * 10 ^ (0 + 1) + n := by
        rw [pow_succ, pow_zero]
        omega
      rw [this]
    · rw [natDigs, if_neg h]
      rw [List.append_assoc, List.singleton_append]
      rw [ih (n / 10) (Nat.div_lt_self (by omega) (by omega)) acc]
      conv_lhs => unfold parseDigits
      rw [if_pos (isDigit_digitChar (n % 10) (by omega)),
        toNat_digitChar (n % 10) (by omega)]
      have harith : (acc * 10 ^ (natDigs (n / 10)).length + n / 10) * 10 +
          (48 + n % 10 - 48) =
          acc * 10 ^ (natDigs (n / 10) ++ [digitChar (n % 10)]).length + n := by
        rw [List.length_append, List.length_cons, List.length_nil, pow_succ]
        have hmod : 10 * (n / 10) + n % 10 = n := Nat.div_add_mod n 10
        ring_nf
        omega
      rw [harith]

theorem parseDigits_stop (rest : List Char) (acc : Nat)
    (h : ∀ c, rest.head? = some c → ¬ isDigit c) :
    parseDigits rest acc = (acc, rest) := by
  cases rest with
  | nil => rfl
  | cons c cs =>
    conv_lhs => unfold parseDigits
    rw [if_neg (h c rfl)]

theorem natDigs_head_digit (n : Nat) :
    ∃ d ds, natDigs n = d :: ds ∧ isDigit d ∧ (d = '0' → n = 0 ∧ ds = []) := by
  induction n using Nat.strong_induction_on with
  | _ n ih =>
    by_cases h : n < 10
    · refine ⟨digitChar n, [], by rw [natDigs, if_pos h], isDigit_digitChar n h, ?_⟩
      intro h0
      have htn := congrArg Char.toNat h0
      rw [toNat_digitChar n h] at htn
      have hz : ('0').toNat = 48 := rfl
      rw [hz] at htn
      exact ⟨by omega, rfl⟩
    · obtain ⟨d, ds, hds, hd, hz⟩ := ih (n / 10) (Nat.div_lt_self (by omega) (by omega))
      refine ⟨d, ds ++ [digitChar (n % 10)], by rw [natDigs, if_neg h, hds]; rfl, hd, ?_⟩
      intro h0
      exact absurd (hz h0).1 (by omega)

theorem parseIntChars_intChars (i : Int) (rest : List Char)
    (hrest : ∀ c, rest.head? = some c → ¬ isDigit c) :
    parseIntChars (intChars i ++ rest) = some (i, rest) := by
  have hhdF : headDigitB rest = false := by
    cases rest with
    | nil => rfl
    | cons c cs2 =>
      have hc : ¬ isDigit c := hrest c rfl
      simp [headDigitB, hc]
  by_cases hneg : i < 0
  · rw [intChars, if_pos hneg]
    obtain ⟨d, ds, hds, hd, hz⟩ := natDigs_head_digit i.natAbs
    have hguard : ¬ (d = '0' ∧ headDigitB (ds ++ rest) = true) := by
      rintro ⟨h0, hhd⟩
      have hn0 := (hz h0).1
      omega
    rw [List.cons_append, hds, List.cons_append]
    conv_lhs => unfold parseIntChars
    dsimp only
    rw [if_pos rfl]
    try dsimp only
    rw [if_pos hd, if_neg hguard, ← List.cons_append, ← hds, parseDigits_natDigs,
      parseDigits_stop rest _ hrest]
    simp only [Nat.zero_mul, Nat.zero_add, Option.some.injEq, Prod.mk.injEq, and_true]
    omega
  · rw [intChars, if_neg hneg]
    obtain ⟨d, ds, hds, hd, hz⟩ := natDigs_head_digit i.natAbs
    have hguard : ¬ (d = '0' ∧ headDigitB (ds ++ rest) = true) := by
      rintro ⟨h0, hhd⟩
      obtain ⟨hn0, hds0⟩ := hz h0
      rw [hds0, List.nil_append, hhdF] at hhd
      exact absurd hhd (by simp)
    rw [hds, List.cons_append]
    conv_lhs => unfold parseIntChars
    dsimp only
    rw [if_neg (by intro hc; subst hc; revert hd; decide), if_pos hd, if_neg hguard,
      ← List.cons_append, ← hds, parseDigits_natDigs,
      parseDigits_stop rest _ hrest]
    simp only [Nat.zero_mul, Nat.zero_add, Option.some.injEq, Prod.mk.injEq, and_true]
    omega

/-! ## The token codec

`FileToken` embeds the struct of `newznab/handler.go` (json tags `u`,
`f`, `s`); `EncodeToken` and `DecodeToken` embed the two functions of
that file.  `jsonTokenText` is the exact `json.Marshal` output shape
(struct fields in declaration order); `parseFileToken` reads one JSON
value as `json.Unmarshal` into a `FileToken` does: leading/trailing
whitespace allowed, top level must be `null` (left as the zero value)
or an object, absent keys keep the zero value, later duplicate keys
overwrite earlier ones, keys matched exactly and then
case-insensitively.  Three behaviours of `json.Unmarshal` at the
fringes of its input domain are not reproduced, and no theorem below
quantifies over payloads exercising them: compound or fractional
values under unknown keys (Go syntax-checks and skips them), byte
sequences that are not valid UTF-8 inside string values (Go
substitutes U+FFFD), and surrogate unicode escapes (Go combines pairs
and substitutes U+FFFD for lone ones). -/

structure FileToken where
  username : String
  filename : String
  size : Int
deriving DecidableEq

/-- The Go zero value of `FileToken`, the starting point of `json.Unmarshal`. -/
def defaultFileToken : FileToken := ⟨"", "", 0⟩

/-- JSON whitespace. -/
def isWs (c : Char) : Prop := c = ' ' ∨ c = '\t' ∨ c = '\n' ∨ c = '\r'

instance (c : Char) : Decidable (isWs c) := by unfold isWs; infer_instance

/-- Skip JSON whitespace. -/
def skipWs : List Char → List Char
  | [] => []
  | c :: cs => if isWs c then skipWs cs else c :: cs

/-- A marshalled JSON string value (quotes plus escaped body). -/
def jstr (s : String) : List Char := '"' :: (escapeList s.data ++ ['"'])

/-- The exact `json.Marshal` output for a `FileToken`. -/
def jsonTokenText (t : FileToken) : List Char :=
  '\x7b' :: '"' :: 'u' :: '"' :: ':' ::
    (jstr t.username ++ ',' :: '"' :: 'f' :: '"' :: ':' ::
      (jstr t.filename ++ ',' :: '"' :: 's' :: '"' :: ':' ::
        (intChars t.size ++ ['\x7d'])))

/-- Skip one scalar JSON value (string, integer, `true`, `false`,
`null`) under a key the struct does not declare.  Go syntax-checks
and skips any JSON value there, including arrays, objects and
fractional numbers; such payloads are outside this model and no
theorem in this file quantifies over them. -/
def parseScalar : List Char → Option (List Char)
  | [] => none
  | c :: cs1 =>
    if c = '"' then (parseJStringBody cs1).map (fun pr => pr.2)
    else if c = '-' ∨ isDigit c then (parseIntChars (c :: cs1)).map (fun pr => pr.2)
    else if (c :: cs1).take 4 = ['t', 'r', 'u', 'e'] then some ((c :: cs1).drop 4)
    else if (c :: cs1).take 5 = ['f', 'a', 'l', 's', 'e'] then some ((c :: cs1).drop 5)
    else if (c :: cs1).take 4 = ['n', 'u', 'l', 'l'] then some ((c :: cs1).drop 4)
    else none

/-- Read one member value and store it under the matched key.  Go
matches a key against the tag exactly and then falls back to
case-insensitive matching (simple case folding, as
`strings.EqualFold`); for the single-letter tags `u`, `f`, `s` the
complete fold classes are `u`/`U`, `f`/`F` and `s`/`S`/U+017F (long
s), listed here explicitly.  Values under unknown keys are skipped
via `parseScalar`. -/
def parseValue (key : List Char) (acc : FileToken) (cs : List Char) :
    Option (FileToken × List Char) :=
  if key = ['u'] ∨ key = ['U'] then
    match cs with
    | [] => none
    | c :: cs1 =>
      if c = '"' then
        (parseJStringBody cs1).map (fun pr => ({acc with username := String.mk pr.1}, pr.2))
      else none
  else if key = ['f'] ∨ key = ['F'] then
    match cs with
    | [] => none
    | c :: cs1 =>
      if c = '"' then
        (parseJStringBody cs1).map (fun pr => ({acc with filename := String.mk pr.1}, pr.2))
      else none
  else if key = ['s'] ∨ key = ['S'] ∨ key = [Char.ofNat 383] then
    (parseIntChars cs).map (fun pr => ({acc with size := pr.1}, pr.2))
  else
    (parseScalar cs).map (fun rest => (acc, rest))

/-- Read the members of the token object after the opening brace, from
the first key.  Fuel bounds the number of members; the callers pass
the input length, which a member (at least four characters) can never
exhaust. -/
def parseMembers : Nat → FileToken → List Char → Option (FileToken × List Char)
  | 0, _, _ => none
  | fuel + 1, acc, cs =>
    match cs with
    | [] => none
    | c :: cs1 =>
      if c = '"' then
        match parseJStringBody cs1 with
        | none => none
        | some (key, cs2) =>
          match skipWs cs2 with
          | [] => none
          | c2 :: cs3 =>
            if c2 = ':' then
              match parseValue key acc (skipWs cs3) with
              | none => none
              | some (acc2, cs4) =>
                match skipWs cs4 with
                | [] => none
                | c3 :: cs5 =>
                  if c3 = ',' then parseMembers fuel acc2 (skipWs cs5)
                  else if c3 = '\x7d' then some (acc2, cs5)
                  else none
            else none
      else none

/-- Read a whole `FileToken` document, as `json.Unmarshal` does for
this target type: one object (or `null`) with only whitespace around
it. -/
def parseFileToken (cs : List Char) : Option FileToken :=
  match skipWs cs with
  | [] => none
  | c :: cs2 =>
    if c = '\x7b' then
      match skipWs cs2 with
      | [] => none
      | c2 :: cs3 =>
        if c2 = '\x7d' then
          if skipWs cs3 = [] then some defaultFileToken else none
        else
          match parseMembers cs.length defaultFileToken (c2 :: cs3) with
          | none => none
          | some (t, rest) => if skipWs rest = [] then some t else none
    else if c = 'n' then
      if cs2.take 3 = ['u', 'l', 'l'] ∧ skipWs (cs2.drop 3) = [] then
        some defaultFileToken
      else none
    else none

/-- The error classes of `DecodeToken`: a base64 decoding failure
(wrapped as `decode base64: ...` in Go) or a `json.Unmarshal` failure
(wrapped as `unmarshal token: ...`). -/
inductive TokenError where
  | decodeBase64Error : TokenError
  | unmarshalError : TokenError
deriving DecidableEq

/-- `json.Unmarshal` of the decoded bytes into a `FileToken`.  The
whole payload is UTF-8 decoded strictly up front; Go scans bytes and
substitutes U+FFFD for invalid UTF-8 inside string values instead of
failing.  No theorem in this file quantifies over payloads that are
not valid UTF-8. -/
def unmarshalFileToken (bs : List Nat) : Option FileToken :=
  match utf8Decode bs with
  | none => none
  | some text => parseFileToken text

/-- `EncodeToken` of `newznab/handler.go`: marshal the token and
base64-encode the bytes with the URL-safe alphabet. -/
def EncodeToken (username filename : String) (size : Int) : String :=
  String.mk (b64Encode (utf8Encode (jsonTokenText ⟨username, filename, size⟩)))

/-- `DecodeToken` of `newznab/handler.go`: base64-decode, then
unmarshal; each stage failure is surfaced as its own error. -/
def DecodeToken (token : String) : Except TokenError FileToken :=
  match b64Decode token.data with
  | none => .error .decodeBase64Error
  | some bs =>
    match unmarshalFileToken bs with
    | none => .error .unmarshalError
    | some t => .ok t

theorem stringMk_data (s : String) : String.mk s.data = s := by
  cases s
  rfl

theorem skipWs_not (c : Char) (cs : List Char) (h : ¬ isWs c) :
    skipWs (c :: cs) = c :: cs := by
  unfold skipWs
  rw [if_neg h]

theorem parseJStringBody_quote (rest : List Char) :
    parseJStringBody ('"' :: rest) = some ([], rest) := by
  conv_lhs => unfold parseJStringBody
  rw [if_pos rfl]

theorem parseJStringBody_key (k : Char) (rest : List Char)
    (h1 : ¬ k = '"') (h2 : ¬ k = '\\') (h3 : ¬ k.toNat < 0x20) :
    parseJStringBody (k :: '"' :: rest) = some ([k], rest) := by
  conv_lhs => unfold parseJStringBody
  rw [if_neg h1, if_neg h2, if_neg h3, parseJStringBody_quote]
  rfl

theorem parseValue_u (acc : FileToken) (s : String) (rest : List Char) :
    parseValue ['u'] acc (jstr s ++ rest) =
      some ({acc with username := s}, rest) := by
  unfold parseValue jstr
  rw [if_pos (Or.inl rfl), List.cons_append]
  try dsimp only
  rw [if_pos rfl, List.append_assoc, List.singleton_append, parse_escapeList]
  simp [stringMk_data]

theorem parseValue_f (acc : FileToken) (s : String) (rest : List Char) :
    parseValue ['f'] acc (jstr s ++ rest) =
      some ({acc with filename := s}, rest) := by
  unfold parseValue jstr
  rw [if_neg (by decide), if_pos (Or.inl rfl), List.cons_append]
  try dsimp only
  rw [if_pos rfl, List.append_assoc, List.singleton_append, parse_escapeList]
  simp [stringMk_data]

theorem parseValue_s (acc : FileToken) (i : Int) (rest : List Char)
    (hrest : ∀ c, rest.head? = some c → ¬ isDigit c) :
    parseValue ['s'] acc (intChars i ++ rest) =
      some ({acc with size := i}, rest) := by
  unfold parseValue
  rw [if_neg (by decide), if_neg (by decide), if_pos (Or.inl rfl),
    parseIntChars_intChars i rest hrest]
  rfl

theorem parseMembers_u (fuel : Nat) (acc : FileToken) (s : String) (rest : List Char) :
    parseMembers (fuel + 1) acc
      ('"' :: 'u' :: '"' :: ':' :: (jstr s ++ ',' :: rest)) =
      parseMembers fuel {acc with username := s} (skipWs rest) := by
  conv_lhs => unfold parseMembers
  dsimp only
  rw [if_pos rfl, parseJStringBody_key 'u' _ (by decide) (by decide) (by decide)]
  dsimp only
  rw [skipWs_not ':' _ (by decide)]
  dsimp only
  rw [if_pos rfl]
  have hjq : skipWs (jstr s ++ ',' :: rest) = jstr s ++ ',' :: rest := by
    unfold jstr
    rw [List.cons_append, skipWs_not '"' _ (by decide)]
  rw [hjq, parseValue_u]
  dsimp only
  rw [skipWs_not ',' _ (by decide)]
  dsimp only
  rw [if_pos rfl]

theorem parseMembers_f (fuel : Nat) (acc : FileToken) (s : String) (rest : List Char) :
    parseMembers (fuel + 1) acc
      ('"' :: 'f' :: '"' :: ':' :: (jstr s ++ ',' :: rest)) =
      parseMembers fuel {acc with filename := s} (skipWs rest) := by
  conv_lhs => unfold parseMembers
  dsimp only
  rw [if_pos rfl, parseJStringBody_key 'f' _ (by decide) (by decide) (by decide)]
  dsimp only
  rw [skipWs_not ':' _ (by decide)]
  dsimp only
  rw [if_pos rfl]
  have hjq : skipWs (jstr s ++ ',' :: rest) = jstr s ++ ',' :: rest := by
    unfold jstr
    rw [List.cons_append, skipWs_not '"' _ (by decide)]
  rw [hjq, parseValue_f]
  dsimp only
  rw [skipWs_not ',' _ (by decide)]
  dsimp only
  rw [if_pos rfl]

theorem parseMembers_s (fuel : Nat) (acc : FileToken) (i : Int) :
    parseMembers (fuel + 1) acc
      ('"' :: 's' :: '"' :: ':' :: (intChars i ++ ['\x7d'])) =
      some ({acc with size := i}, []) := by
  conv_lhs => unfold parseMembers
  dsimp only
  rw [if_pos rfl, parseJStringBody_key 's' _ (by decide) (by decide) (by decide)]
  dsimp only
  rw [skipWs_not ':' _ (by decide)]
  dsimp only
  rw [if_pos rfl]
  have hin : skipWs (intChars i ++ ['\x7d']) = intChars i ++ ['\x7d'] := by
    unfold intChars
    by_cases hneg : i < 0
    · rw [if_pos hneg, List.cons_append, skipWs_not '-' _ (by decide)]
    · rw [if_neg hneg]
      obtain ⟨d, ds, hds, hd, hz⟩ := natDigs_head_digit i.natAbs
      rw [hds, List.cons_append, skipWs_not d _ (by
        intro hw
        rcases hw with h | h | h | h <;> (subst h; revert hd; decide))]
  rw [hin, parseValue_s acc i ['\x7d'] (by intro c hc; cases hc; decide)]
  dsimp only
  rw [skipWs_not '\x7d' _ (by decide)]
  dsimp only
  rw [if_neg (by decide), if_pos rfl]

theorem parseFileToken_jsonTokenText (t : FileToken) :
    parseFileToken (jsonTokenText t) = some t := by
  obtain ⟨u, f, s⟩ := t
  obtain ⟨k, hk⟩ : ∃ k, (jsonTokenText ⟨u, f, s⟩).length = k + 1 + 1 + 1 := by
    refine ⟨(jsonTokenText ⟨u, f, s⟩).length - 3, ?_⟩
    unfold jsonTokenText
    simp only [List.length_cons]
    omega
  unfold parseFileToken
  rw [hk]
  unfold jsonTokenText
  rw [skipWs_not '\x7b' _ (by decide)]
  dsimp only
  rw [if_pos rfl, skipWs_not '"' _ (by decide)]
  dsimp only
  rw [if_neg (by decide)]
  rw [parseMembers_u, skipWs_not '"' _ (by decide), parseMembers_f,
    skipWs_not '"' _ (by decide), parseMembers_s]
  dsimp only
  rw [show skipWs ([] : List Char) = [] from rfl, if_pos rfl]

/-- C1: for every owner, resource path (backslashes and empty strings
included) and size, `DecodeToken` applied to `EncodeToken` succeeds
and returns exactly the original triple. -/
theorem C1_token_roundtrip (u f : String) (s : Int) :
    DecodeToken (EncodeToken u f s) = Except.ok ⟨u, f, s⟩ := by
  unfold EncodeToken DecodeToken
  rw [show (String.mk (b64Encode (utf8Encode (jsonTokenText ⟨u, f, s⟩)))).data =
      b64Encode (utf8Encode (jsonTokenText ⟨u, f, s⟩)) from rfl]
  rw [b64_roundtrip _ (utf8Encode_lt_256 _)]
  dsimp only
  unfold unmarshalFileToken
  rw [utf8_roundtrip]
  dsimp only
  rw [parseFileToken_jsonTokenText]

/-! ## The transfer registry (`store/store.go`)

The Go store is `map[string]*Download` behind a reader/writer lock; we
model the map as a list of `Download` records keyed by the `id` field
(`Add` writes `s.downloads[id] = &Download{...}`, so an existing key
would be overwritten; `generateID` draws random ids, modelled by
passing the id explicitly).  `time.Now()` is modelled by an explicit
`now : Nat` argument, and the `time.Time` zero value used as the
"unset" sentinel for `CompletedAt` is modelled as `none`. -/

inductive Status where
  | queued : Status
  | downloading : Status
  | completed : Status
  | failed : Status
deriving DecidableEq, BEq

structure Download where
  id : String
  username : String
  filename : String
  size : Int
  bytesDownloaded : Int
  category : String
  status : Status
  addedAt : Nat
  completedAt : Option Nat
  retries : Int
  maxRetries : Int
  transferID : String
deriving DecidableEq

abbrev Store := List Download

/-- `Store.Add`: create a new entry in state Queued with
`MaxRetries: 3` and zero values elsewhere. -/
def add (s : Store) (id username filename : String) (size : Int) (category : String)
    (now : Nat) : Store :=
  let d : Download :=
    { id := id, username := username, filename := filename, size := size,
      bytesDownloaded := 0, category := category, status := Status.queued,
      addedAt := now, completedAt := none, retries := 0, maxRetries := 3,
      transferID := "" }
  if s.any (fun e => e.id == id) then s.map (fun e => if e.id = id then d else e)
  else s ++ [d]

/-- `Store.Get`: the entry with the given id, if present (a copy). -/
def getDl (s : Store) (id : String) : Option Download :=
  s.find? (fun e => e.id == id)

/-- `Store.UpdateTransfer`: no-op for an absent id; otherwise
overwrite `BytesDownloaded` and `Status`, and stamp `CompletedAt` when
the new status is terminal and it is still unset. -/
def updateTransfer (s : Store) (id : String) (bytesDownloaded : Int) (status : Status)
    (now : Nat) : Store :=
  s.map (fun dl =>
    if dl.id = id then
      let dl2 := {dl with bytesDownloaded := bytesDownloaded, status := status}
      if (status = Status.completed ∨ status = Status.failed) ∧ dl2.completedAt = none then
        {dl2 with completedAt := some now}
      else dl2
    else dl)

/-- `Store.IncrementRetry`: false for an absent id; otherwise bump
`Retries`; if the bumped count exceeds `MaxRetries` return false
(keeping the bumped count but touching nothing else), else reset the
entry to Queued with zero bytes and cleared `CompletedAt`. -/
def incrementRetry (s : Store) (id : String) : Bool × Store :=
  match s.find? (fun e => e.id == id) with
  | none => (false, s)
  | some dl =>
    if dl.retries + 1 > dl.maxRetries then
      (false, s.map (fun e => if e.id = id then {e with retries := e.retries + 1} else e))
    else
      (true, s.map (fun e =>
        if e.id = id then
          {e with
            retries := e.retries + 1
            status := Status.queued
            bytesDownloaded := 0
            completedAt := none}
        else e))

/-- `Store.SetTransferID`. -/
def setTransferID (s : Store) (id transferID : String) : Store :=
  s.map (fun e => if e.id = id then {e with transferID := transferID} else e)

/-- `Store.Remove`: delete the entry (idempotent). -/
def remove (s : Store) (id : String) : Store :=
  s.filter (fun e => ! (e.id == id))

/-- `Store.Queue`: entries that are queued or downloading. -/
def queue (s : Store) : Store :=
  s.filter (fun e => decide (e.status = Status.queued ∨ e.status = Status.downloading))

/-- `Store.History`: entries that are completed or failed. -/
def history (s : Store) : Store :=
  s.filter (fun e => decide (e.status = Status.completed ∨ e.status = Status.failed))

/-- `Store.All`: every entry (copies in Go; the list itself here). -/
def allDownloads (s : Store) : Store := s

/-- `Store.FindByFile`: first entry with the given username and filename. -/
def findByFile (s : Store) (username filename : String) : Option Download :=
  s.find? (fun e => e.username == username && e.filename == filename)

/-- `Download.Progress`: percentage, 0 when the size is 0. -/
def progress (d : Download) : ℚ :=
  if d.size = 0 then 0 else (d.bytesDownloaded : ℚ) / (d.size : ℚ) * 100

/-- The status of the entry with the given id. -/
def statusOf (s : Store) (id : String) : Option Status :=
  (s.find? (fun e => e.id == id)).map (fun e => e.status)

theorem find?_map_of_id_preserving (s : Store) (id : String) (F : Download → Download)
    (hF : ∀ e, (F e).id = e.id) :
    (s.map F).find? (fun e => e.id == id) = (s.find? (fun e => e.id == id)).map F := by
  rw [List.find?_map]
  have hcomp : ((fun e => e.id == id) ∘ F) = (fun e => e.id == id) := by
    funext e
    simp [Function.comp, hF]
  rw [hcomp]

theorem find?_id_eq (s : Store) (id : String) (dl : Download)
    (h : s.find? (fun e => e.id == id) = some dl) : dl.id = id := by
  have := List.find?_some h
  simpa using this

theorem map_noop_of_find?_none (s : Store) (id : String) (F : Download → Download)
    (hF : ∀ e, ¬ e.id = id → F e = e)
    (h : s.find? (fun e => e.id == id) = none) : s.map F = s := by
  have hall := List.find?_eq_none.mp h
  have : ∀ e ∈ s, F e = e := by
    intro e he
    have hne : ¬ e.id = id := by
      have := hall e he
      simpa using this
    exact hF e hne
  exact (List.map_congr_left this).trans (List.map_id s)

theorem find?_updateTransfer_self (s : Store) (id : String) (dl : Download) (b : Int)
    (st : Status) (now : Nat) (h : s.find? (fun e => e.id == id) = some dl) :
    (updateTransfer s id b st now).find? (fun e => e.id == id) =
      some {dl with
        bytesDownloaded := b
        status := st
        completedAt :=
          if (st = Status.completed ∨ st = Status.failed) ∧ dl.completedAt = none
          then some now else dl.completedAt} := by
  have hid : dl.id = id := find?_id_eq s id dl h
  unfold updateTransfer
  rw [find?_map_of_id_preserving s id _ (by
    intro e
    dsimp only
    by_cases he : e.id = id
    · rw [if_pos he]
      by_cases hc : (st = Status.completed ∨ st = Status.failed) ∧ e.completedAt = none
      · rw [if_pos hc]
      · rw [if_neg hc]
    · rw [if_neg he]), h, Option.map_some']
  try dsimp only
  rw [if_pos hid]
  by_cases hc : (st = Status.completed ∨ st = Status.failed) ∧ dl.completedAt = none
  · rw [if_pos hc, if_pos hc]
  · rw [if_neg hc, if_neg hc]

theorem find?_filter_keep (s : Store) (p q : Download → Bool)
    (h : ∀ e, p e = true → q e = true) :
    (s.filter q).find? p = s.find? p := by
  induction s with
  | nil => rfl
  | cons d t ih =>
    by_cases hq : q d = true
    · rw [List.filter_cons_of_pos hq]
      by_cases hp : p d = true
      · rw [List.find?_cons_of_pos _ hp, List.find?_cons_of_pos _ hp]
      · rw [List.find?_cons_of_neg _ (by simpa using hp),
          List.find?_cons_of_neg _ (by simpa using hp), ih]
    · have hp : ¬ p d = true := fun hp => hq (h d hp)
      rw [List.filter_cons_of_neg (by simpa using hq),
        List.find?_cons_of_neg _ (by simpa using hp), ih]

theorem find?_append_ne (s : Store) (d : Download) (p : Download → Bool)
    (hd : ¬ p d = true) :
    (s ++ [d]).find? p = s.find? p := by
  rw [List.find?_append]
  have hnil : List.find? p [d] = none := by
    rw [List.find?_cons_of_neg _ (by simpa using hd)]
    rfl
  rw [hnil, Option.or_none]

/-! Concrete retry scenario: an entry created through `Add` (so with
the default `MaxRetries = 3`) retried four times. -/

def retryScn0 : Store := add [] "d1" "alice" "dir/file.mkv" 1000 "radarr" 5

def retryScn1 : Store := (incrementRetry retryScn0 "d1").2

def retryScn2 : Store := (incrementRetry retryScn1 "d1").2

def retryScn3 : Store := (incrementRetry retryScn2 "d1").2

/-- The entry `retryScn0` holds. -/
def retryScnD : Download :=
  { id := "d1", username := "alice", filename := "dir/file.mkv", size := 1000,
    bytesDownloaded := 0, category := "radarr", status := Status.queued,
    addedAt := 5, completedAt := none, retries := 0, maxRetries := 3,
    transferID := "" }

/-- C2: for an entry present in the registry, `IncrementRetry`
increments its retry count; if the incremented count exceeds
`maxRetries` it returns false and leaves status (and every other
field) untouched, otherwise it resets the entry to Queued with zero
bytes and a cleared `completedAt` and returns true.  With the default
`maxRetries = 3`, a fourth retry returns false and leaves the status
unchanged from before that call. -/
theorem C2_incrementRetry (s : Store) (id : String) (dl : Download)
    (h : s.find? (fun e => e.id == id) = some dl) :
    ((dl.retries + 1 > dl.maxRetries →
        (incrementRetry s id).1 = false ∧
        (incrementRetry s id).2.find? (fun e => e.id == id) =
          some {dl with retries := dl.retries + 1}) ∧
      (dl.retries + 1 ≤ dl.maxRetries →
        (incrementRetry s id).1 = true ∧
        (incrementRetry s id).2.find? (fun e => e.id == id) =
          some {dl with
            retries := dl.retries + 1
            status := Status.queued
            bytesDownloaded := 0
            completedAt := none})) ∧
    ((incrementRetry retryScn0 "d1").1 = true ∧
      (incrementRetry retryScn1 "d1").1 = true ∧
      (incrementRetry retryScn2 "d1").1 = true ∧
      (incrementRetry retryScn3 "d1").1 = false ∧
      statusOf (incrementRetry retryScn3 "d1").2 "d1" = statusOf retryScn3 "d1") := by
  have hid : dl.id = id := find?_id_eq s id dl h
  refine ⟨⟨?_, ?_⟩, by decide⟩
  · intro hgt
    unfold incrementRetry
    rw [h]
    dsimp only
    rw [if_pos hgt]
    refine ⟨rfl, ?_⟩
    rw [find?_map_of_id_preserving s id _ (by
      intro e
      try dsimp only
      by_cases he : e.id = id
      · rw [if_pos he]
      · rw [if_neg he]), h, Option.map_some']
    try dsimp only
    rw [if_pos hid]
  · intro hle
    unfold incrementRetry
    rw [h]
    dsimp only
    rw [if_neg (by omega)]
    refine ⟨rfl, ?_⟩
    rw [find?_map_of_id_preserving s id _ (by
      intro e
      try dsimp only
      by_cases he : e.id = id
      · rw [if_pos he]
      · rw [if_neg he]), h, Option.map_some']
    try dsimp only
    rw [if_pos hid]

/-- C2 witness: the claim instantiated on the concrete one-entry
registry of the retry scenario. -/
theorem C2_incrementRetry_witness :
    (incrementRetry retryScn0 "d1").1 = true ∧
    (incrementRetry retryScn0 "d1").2.find? (fun e => e.id == "d1") =
      some {retryScnD with
        retries := retryScnD.retries + 1
        status := Status.queued
        bytesDownloaded := 0
        completedAt := none} := by
  have h := C2_incrementRetry retryScn0 "d1" retryScnD (by decide)
  exact h.1.2 (by decide)

/-- C3: `UpdateTransfer` is a no-op for an absent id; for a present
entry it overwrites `bytesDownloaded` and `status` and stamps
`completedAt` exactly when the new status is terminal and it was
unset; a set `completedAt` is never changed by `UpdateTransfer`, and a
failed `IncrementRetry` does not clear it either (only a successful
retry does, cf. C2). -/
theorem C3_updateTransfer (s : Store) (id : String) (b : Int) (st : Status) (now : Nat) :
    (s.find? (fun e => e.id == id) = none → updateTransfer s id b st now = s) ∧
    (∀ dl, s.find? (fun e => e.id == id) = some dl →
      (updateTransfer s id b st now).find? (fun e => e.id == id) =
        some {dl with
          bytesDownloaded := b
          status := st
          completedAt :=
            if (st = Status.completed ∨ st = Status.failed) ∧ dl.completedAt = none
            then some now else dl.completedAt}) ∧
    (∀ dl t0, s.find? (fun e => e.id == id) = some dl → dl.completedAt = some t0 →
      ((updateTransfer s id b st now).find? (fun e => e.id == id)).map
        (fun e => e.completedAt) = some (some t0)) ∧
    (∀ dl, s.find? (fun e => e.id == id) = some dl → (incrementRetry s id).1 = false →
      ((incrementRetry s id).2.find? (fun e => e.id == id)).map
        (fun e => e.completedAt) = some dl.completedAt) := by
  refine ⟨?_, ?_, ?_, ?_⟩
  · intro h
    unfold updateTransfer
    refine map_noop_of_find?_none s id _ ?_ h
    intro e hne
    dsimp only
    rw [if_neg hne]
  · intro dl h
    exact find?_updateTransfer_self s id dl b st now h
  · intro dl t0 h hca
    rw [find?_updateTransfer_self s id dl b st now h, Option.map_some']
    try dsimp only
    rw [if_neg (by simp [hca]), hca]
  · intro dl h hfalse
    have hid : dl.id = id := find?_id_eq s id dl h
    unfold incrementRetry at hfalse ⊢
    rw [h] at hfalse ⊢
    dsimp only at hfalse ⊢
    by_cases hgt : dl.retries + 1 > dl.maxRetries
    · rw [if_pos hgt]
      try dsimp only
      rw [find?_map_of_id_preserving s id _ (by
        intro e
        try dsimp only
        by_cases he : e.id = id
        · rw [if_pos he]
        · rw [if_neg he]), h, Option.map_some', if_pos hid, Option.map_some']
    · rw [if_neg hgt] at hfalse
      simp at hfalse

/-- C3 witness: the claim instantiated on the concrete one-entry
registry of the retry scenario (update to Completed stamps the time,
a second update keeps the original stamp). -/
theorem C3_updateTransfer_witness :
    (updateTransfer retryScn0 "d1" 400 Status.completed 7).find? (fun e => e.id == "d1") =
      some {retryScnD with
        bytesDownloaded := 400
        status := Status.completed
        completedAt := some 7} := by
  have h := (C3_updateTransfer retryScn0 "d1" 400 Status.completed 7).2.1
    retryScnD (by decide)
  rw [h]
  decide

/-- C5: every entry of the registry is in `Queue` exactly when its
status is Queued or Downloading, in `History` exactly when its status
is Completed or Failed, and it is always in exactly one of the two
lists; membership is determined by the status alone. -/
theorem C5_partition (s : Store) (dl : Download) (h : dl ∈ s) :
    (dl ∈ queue s ↔ (dl.status = Status.queued ∨ dl.status = Status.downloading)) ∧
    (dl ∈ history s ↔ (dl.status = Status.completed ∨ dl.status = Status.failed)) ∧
    ((dl ∈ queue s ∧ dl ∉ history s) ∨ (dl ∉ queue s ∧ dl ∈ history s)) := by
  refine ⟨?_, ?_, ?_⟩
  · unfold queue
    rw [List.mem_filter]
    simp [h]
  · unfold history
    rw [List.mem_filter]
    simp [h]
  · cases hst : dl.status <;>
      simp [queue, history, List.mem_filter, h, hst]

/-- C5 witness: the claim instantiated on a concrete registry. -/
theorem C5_partition_witness :
    (retryScnD ∈ queue retryScn0 ↔
      (retryScnD.status = Status.queued ∨ retryScnD.status = Status.downloading)) ∧
    (retryScnD ∈ history retryScn0 ↔
      (retryScnD.status = Status.completed ∨ retryScnD.status = Status.failed)) ∧
    ((retryScnD ∈ queue retryScn0 ∧ retryScnD ∉ history retryScn0) ∨
      (retryScnD ∉ queue retryScn0 ∧ retryScnD ∈ history retryScn0)) :=
  C5_partition retryScn0 retryScnD (by decide)

/-- C10: `IncrementRetry` on an id with no entry returns false and
returns the registry completely unchanged. -/
theorem C10_retry_absent (s : Store) (id : String)
    (h : s.find? (fun e => e.id == id) = none) :
    incrementRetry s id = (false, s) := by
  unfold incrementRetry
  rw [h]

/-- C10 witness: retry of an id absent from a nonempty registry. -/
theorem C10_retry_absent_witness : incrementRetry retryScn0 "missing" = (false, retryScn0) :=
  C10_retry_absent retryScn0 "missing" (by decide)

/-! ## Registry operation traces (for the lifecycle claim)

The registry operations as a small command language, to speak about
states reachable from the empty registry by operation sequences. -/

inductive StoreOp where
  | opAdd (id username filename : String) (size : Int) (category : String) (now : Nat) : StoreOp
  | opUpdate (id : String) (bytesDownloaded : Int) (status : Status) (now : Nat) : StoreOp
  | opRetry (id : String) : StoreOp
  | opRemove (id : String) : StoreOp

/-- Apply one registry operation. -/
def applyOp (s : Store) : StoreOp → Store
  | StoreOp.opAdd id username filename size category now =>
      add s id username filename size category now
  | StoreOp.opUpdate id b st now => updateTransfer s id b st now
  | StoreOp.opRetry id => (incrementRetry s id).2
  | StoreOp.opRemove id => remove s id

/-- Run a sequence of registry operations from the empty registry. -/
def runOps (ops : List StoreOp) : Store := ops.foldl applyOp []

/-- Whether an operation is the retry operation. -/
def isRetryOp : StoreOp → Bool
  | StoreOp.opRetry _ => true
  | _ => false

/-- The status moves the claim allows for one operation: any move to
Queued for retry; for every other operation only staying put,
Queued to Downloading, or Downloading to a terminal status. -/
def claimedStep (op : StoreOp) (before after : Status) : Bool :=
  if isRetryOp op then after == before || after == Status.queued
  else
    after == before || (before == Status.queued && after == Status.downloading) ||
      (before == Status.downloading && (after == Status.completed || after == Status.failed))

/-- C4 counterexample: the claim states that in states reachable from
the empty registry, no operation other than retry moves a status
backward or out of a terminal state.  But `updateProgress` writes
whatever status it is given: after `create` and
`updateProgress(id, 0, Completed)` the entry is Completed, and a
further `updateProgress(id, 0, Downloading)` — not a retry — moves it
back out of the terminal state, a move `claimedStep` forbids. -/
theorem C4_counterexample :
    statusOf (runOps [StoreOp.opAdd "a" "alice" "f.mkv" 10 "cat" 0,
        StoreOp.opUpdate "a" 0 Status.completed 1]) "a" = some Status.completed ∧
    statusOf (applyOp (runOps [StoreOp.opAdd "a" "alice" "f.mkv" 10 "cat" 0,
        StoreOp.opUpdate "a" 0 Status.completed 1])
        (StoreOp.opUpdate "a" 0 Status.downloading 2)) "a" = some Status.downloading ∧
    claimedStep (StoreOp.opUpdate "a" 0 Status.downloading 2)
      Status.completed Status.downloading = false := by
  refine ⟨by decide, by decide, by decide⟩

/-- C4 amended: what the operations actually do to a status.
`create` sets Queued (also when it overwrites an existing id);
`updateProgress` sets exactly the status passed to it, whatever the
previous status was — including backward moves and moves out of a
terminal state; an allowed retry sets Queued and a refused retry
leaves the status unchanged; `remove` deletes the entry; and an
operation targeting a different id never changes this entry's
status. -/
theorem C4_amended_statusMoves (s : Store) (id : String) (dl : Download)
    (h : s.find? (fun e => e.id == id) = some dl) :
    (∀ b st now, statusOf (updateTransfer s id b st now) id = some st) ∧
    ((incrementRetry s id).1 = true →
      statusOf (incrementRetry s id).2 id = some Status.queued) ∧
    ((incrementRetry s id).1 = false →
      statusOf (incrementRetry s id).2 id = some dl.status) ∧
    (∀ username filename size category now,
      statusOf (add s id username filename size category now) id = some Status.queued) ∧
    statusOf (remove s id) id = none ∧
    (∀ id2 b st now, id2 ≠ id →
      statusOf (updateTransfer s id2 b st now) id = statusOf s id) ∧
    (∀ id2, id2 ≠ id → statusOf (incrementRetry s id2).2 id = statusOf s id) ∧
    (∀ id2, id2 ≠ id → statusOf (remove s id2) id = statusOf s id) := by
  have hid : dl.id = id := find?_id_eq s id dl h
  refine ⟨?_, ?_, ?_, ?_, ?_, ?_, ?_, ?_⟩
  · intro b st now
    unfold statusOf
    rw [find?_updateTransfer_self s id dl b st now h, Option.map_some']
  · intro htrue
    unfold incrementRetry at htrue ⊢
    rw [h] at htrue ⊢
    try dsimp only at htrue ⊢
    by_cases hgt : dl.retries + 1 > dl.maxRetries
    · rw [if_pos hgt] at htrue
      simp at htrue
    · rw [if_neg hgt]
      unfold statusOf
      try dsimp only
      rw [find?_map_of_id_preserving s id _ (by
        intro e
        try dsimp only
        by_cases he : e.id = id
        · rw [if_pos he]
        · rw [if_neg he]), h, Option.map_some', if_pos hid, Option.map_some']
  · intro hfalse
    unfold incrementRetry at hfalse ⊢
    rw [h] at hfalse ⊢
    try dsimp only at hfalse ⊢
    by_cases hgt : dl.retries + 1 > dl.maxRetries
    · rw [if_pos hgt]
      unfold statusOf
      try dsimp only
      rw [find?_map_of_id_preserving s id _ (by
        intro e
        try dsimp only
        by_cases he : e.id = id
        · rw [if_pos he]
        · rw [if_neg he]), h, Option.map_some', if_pos hid, Option.map_some']
    · rw [if_neg hgt] at hfalse
      simp at hfalse
  · intro username filename size category now
    unfold add statusOf
    have hany : s.any (fun e => e.id == id) = true := by
      rw [List.any_eq_true]
      exact ⟨dl, List.mem_of_find?_eq_some h, by simp [hid]⟩
    rw [if_pos hany]
    try dsimp only
    rw [find?_map_of_id_preserving s id _ (by
      intro e
      try dsimp only
      by_cases he : e.id = id
      · rw [if_pos he, he]
      · rw [if_neg he]), h, Option.map_some', if_pos hid, Option.map_some']
  · unfold remove statusOf
    rw [List.find?_eq_none.mpr ?hnone]
    · rfl
    case hnone =>
      intro e he
      have := (List.mem_filter.mp he).2
      simpa using this
  · intro id2 b st now hne
    unfold updateTransfer statusOf
    rw [find?_map_of_id_preserving s id _ (by
      intro e
      try dsimp only
      by_cases he : e.id = id2
      · rw [if_pos he]
        by_cases hc : (st = Status.completed ∨ st = Status.failed) ∧ e.completedAt = none
        · rw [if_pos hc]
        · rw [if_neg hc]
      · rw [if_neg he]), h, Option.map_some',
      if_neg (by rw [hid]; intro hx; exact hne hx.symm), Option.map_some']
  · intro id2 hne
    unfold incrementRetry statusOf
    cases hf2 : s.find? (fun e => e.id == id2) with
    | none => rfl
    | some dl2 =>
      try dsimp only
      by_cases hgt : dl2.retries + 1 > dl2.maxRetries
      · rw [if_pos hgt]
        try dsimp only
        rw [find?_map_of_id_preserving s id _ (by
          intro e
          try dsimp only
          by_cases he : e.id = id2
          · rw [if_pos he]
          · rw [if_neg he]), h, Option.map_some',
          if_neg (by rw [hid]; intro hx; exact hne hx.symm), Option.map_some']
      · rw [if_neg hgt]
        try dsimp only
        rw [find?_map_of_id_preserving s id _ (by
          intro e
          try dsimp only
          by_cases he : e.id = id2
          · rw [if_pos he]
          · rw [if_neg he]), h, Option.map_some',
          if_neg (by rw [hid]; intro hx; exact hne hx.symm), Option.map_some']
  · intro id2 hne
    unfold remove statusOf
    rw [find?_filter_keep s _ _ (by
      intro e he
      have he2 : e.id = id := by simpa using he
      have hne2 : ¬ id = id2 := fun hx => hne hx.symm
      simp [he2, hne2]), h]

/-- C4 amended witness: the amended claim instantiated on the
one-entry scenario registry. -/
theorem C4_amended_statusMoves_witness :
    statusOf (updateTransfer retryScn0 "d1" 0 Status.downloading 9) "d1" =
      some Status.downloading :=
  (C4_amended_statusMoves retryScn0 "d1" retryScnD (by decide)).1 0 Status.downloading 9

/-! ## C9: decode error classification -/

/-- C9 counterexample: the claim says decode succeeds only on tokens
whose decoded bytes supply all three fields, but `json.Unmarshal`
leaves absent fields at their zero values: the token `e30=` decodes
(base64) to the two bytes `7B 7D` — the empty object, supplying no
field at all — and `DecodeToken` nevertheless succeeds, returning the
zero-valued triple. -/
theorem C9_counterexample :
    DecodeToken "e30=" = Except.ok ⟨"", "", 0⟩ ∧
    b64Decode ("e30=".data) = some [123, 125] := by
  refine ⟨rfl, rfl⟩

/-- A canonical payload carrying only the `u` field. -/
def jsonTextU (u : String) : List Char :=
  '\x7b' :: '"' :: 'u' :: '"' :: ':' :: (jstr u ++ ['\x7d'])

/-- A canonical payload carrying only the `f` field. -/
def jsonTextF (f : String) : List Char :=
  '\x7b' :: '"' :: 'f' :: '"' :: ':' :: (jstr f ++ ['\x7d'])

/-- A canonical payload carrying only the `s` field. -/
def jsonTextS (s : Int) : List Char :=
  '\x7b' :: '"' :: 's' :: '"' :: ':' :: (intChars s ++ ['\x7d'])

/-- The empty-object payload, carrying no field. -/
def jsonTextEmpty : List Char := ['\x7b', '\x7d']

theorem parseMembers_u_last (fuel : Nat) (acc : FileToken) (s : String) :
    parseMembers (fuel + 1) acc ('"' :: 'u' :: '"' :: ':' :: (jstr s ++ ['\x7d'])) =
      some ({acc with username := s}, []) := by
  conv_lhs => unfold parseMembers
  try dsimp only
  rw [if_pos rfl, parseJStringBody_key 'u' _ (by decide) (by decide) (by decide)]
  try dsimp only
  rw [skipWs_not ':' _ (by decide)]
  try dsimp only
  rw [if_pos rfl]
  have hjq : skipWs (jstr s ++ ['\x7d']) = jstr s ++ ['\x7d'] := by
    unfold jstr
    rw [List.cons_append, skipWs_not '"' _ (by decide)]
  rw [hjq, parseValue_u acc s ['\x7d']]
  try dsimp only
  rw [skipWs_not '\x7d' _ (by decide)]
  try dsimp only
  rw [if_neg (by decide), if_pos rfl]

theorem parseMembers_f_last (fuel : Nat) (acc : FileToken) (s : String) :
    parseMembers (fuel + 1) acc ('"' :: 'f' :: '"' :: ':' :: (jstr s ++ ['\x7d'])) =
      some ({acc with filename := s}, []) := by
  conv_lhs => unfold parseMembers
  try dsimp only
  rw [if_pos rfl, parseJStringBody_key 'f' _ (by decide) (by decide) (by decide)]
  try dsimp only
  rw [skipWs_not ':' _ (by decide)]
  try dsimp only
  rw [if_pos rfl]
  have hjq : skipWs (jstr s ++ ['\x7d']) = jstr s ++ ['\x7d'] := by
    unfold jstr
    rw [List.cons_append, skipWs_not '"' _ (by decide)]
  rw [hjq, parseValue_f acc s ['\x7d']]
  try dsimp only
  rw [skipWs_not '\x7d' _ (by decide)]
  try dsimp only
  rw [if_neg (by decide), if_pos rfl]

theorem parseFileToken_jsonTextU (u : String) :
    parseFileToken (jsonTextU u) = some ⟨u, "", 0⟩ := by
  obtain ⟨k, hk⟩ : ∃ k, (jsonTextU u).length = k + 1 := by
    refine ⟨(jsonTextU u).length - 1, ?_⟩
    unfold jsonTextU
    simp only [List.length_cons]
    omega
  unfold parseFileToken
  rw [hk]
  unfold jsonTextU
  rw [skipWs_not '\x7b' _ (by decide)]
  try dsimp only
  rw [if_pos rfl, skipWs_not '"' _ (by decide)]
  try dsimp only
  rw [if_neg (by decide), parseMembers_u_last]
  try dsimp only
  rw [show skipWs ([] : List Char) = [] from rfl, if_pos rfl]
  rfl

theorem parseFileToken_jsonTextF (f : String) :
    parseFileToken (jsonTextF f) = some ⟨"", f, 0⟩ := by
  obtain ⟨k, hk⟩ : ∃ k, (jsonTextF f).length = k + 1 := by
    refine ⟨(jsonTextF f).length - 1, ?_⟩
    unfold jsonTextF
    simp only [List.length_cons]
    omega
  unfold parseFileToken
  rw [hk]
  unfold jsonTextF
  rw [skipWs_not '\x7b' _ (by decide)]
  try dsimp only
  rw [if_pos rfl, skipWs_not '"' _ (by decide)]
  try dsimp only
  rw [if_neg (by decide), parseMembers_f_last]
  try dsimp only
  rw [show skipWs ([] : List Char) = [] from rfl, if_pos rfl]
  rfl

theorem parseFileToken_jsonTextS (i : Int) :
    parseFileToken (jsonTextS i) = some ⟨"", "", i⟩ := by
  obtain ⟨k, hk⟩ : ∃ k, (jsonTextS i).length = k + 1 := by
    refine ⟨(jsonTextS i).length - 1, ?_⟩
    unfold jsonTextS
    simp only [List.length_cons]
    omega
  unfold parseFileToken
  rw [hk]
  unfold jsonTextS
  rw [skipWs_not '\x7b' _ (by decide)]
  try dsimp only
  rw [if_pos rfl, skipWs_not '"' _ (by decide)]
  try dsimp only
  rw [if_neg (by decide), parseMembers_s]
  try dsimp only
  rw [show skipWs ([] : List Char) = [] from rfl, if_pos rfl]
  rfl

theorem decodeToken_of_text (text : List Char) (tok : FileToken)
    (h : parseFileToken text = some tok) :
    DecodeToken (String.mk (b64Encode (utf8Encode text))) = Except.ok tok := by
  unfold DecodeToken
  rw [show (String.mk (b64Encode (utf8Encode text))).data =
      b64Encode (utf8Encode text) from rfl]
  rw [b64_roundtrip _ (utf8Encode_lt_256 text)]
  try dsimp only
  unfold unmarshalFileToken
  rw [utf8_roundtrip]
  try dsimp only
  rw [h]

/-- C9 amended: `DecodeToken` fails with the MalformedToken class
exactly when the token is not valid URL-safe base64 (Go's decoder
ignoring embedded CR and LF); and the decoded payload need not supply
the three fields: a canonical payload carrying any single field — or
none at all — decodes successfully, the absent fields keeping their
zero values (the size field within the int64 range, on which Go's
`strconv.ParseInt` succeeds).  A CorruptPayload-class error arises
only from payloads `json.Unmarshal` rejects, never from missing
fields. -/
theorem C9_amended_errors :
    (∀ t : String,
      DecodeToken t = Except.error TokenError.decodeBase64Error ↔ b64Decode t.data = none) ∧
    DecodeToken (String.mk (b64Encode (utf8Encode jsonTextEmpty))) = Except.ok ⟨"", "", 0⟩ ∧
    (∀ u : String,
      DecodeToken (String.mk (b64Encode (utf8Encode (jsonTextU u)))) = Except.ok ⟨u, "", 0⟩) ∧
    (∀ f : String,
      DecodeToken (String.mk (b64Encode (utf8Encode (jsonTextF f)))) = Except.ok ⟨"", f, 0⟩) ∧
    (∀ s : Int, -(2 ^ 63) ≤ s → s < 2 ^ 63 →
      DecodeToken (String.mk (b64Encode (utf8Encode (jsonTextS s)))) = Except.ok ⟨"", "", s⟩) := by
  refine ⟨?_, rfl, ?_, ?_, ?_⟩
  · intro t
    unfold DecodeToken
    cases hb : b64Decode t.data with
    | none => simp
    | some bs =>
      cases hu : unmarshalFileToken bs with
      | none => simp [hu]
      | some tok => simp [hu]
  · intro u
    exact decodeToken_of_text (jsonTextU u) ⟨u, "", 0⟩ (parseFileToken_jsonTextU u)
  · intro f
    exact decodeToken_of_text (jsonTextF f) ⟨"", f, 0⟩ (parseFileToken_jsonTextF f)
  · intro s h1 h2
    exact decodeToken_of_text (jsonTextS s) ⟨"", "", s⟩ (parseFileToken_jsonTextS s)

/-- C9 amended witness: the malformed class at a non-base64 token,
and field-optional success at a concrete in-range size. -/
theorem C9_amended_errors_witness :
    DecodeToken "!!!" = Except.error TokenError.decodeBase64Error ∧
    DecodeToken (String.mk (b64Encode (utf8Encode (jsonTextS 7)))) = Except.ok ⟨"", "", 7⟩ := by
  refine ⟨(C9_amended_errors.1 "!!!").mpr (by rfl),
    C9_amended_errors.2.2.2.2 7 (by norm_num) (by norm_num)⟩

/-! ## Backend state mapping and the reconciliation pass

`syncOnce` of the SABnzbd handler: fetch the backend's grouped
transfer snapshot, build a last-write-wins lookup keyed by
`(username, filename)`, and for every non-terminal tracked entry with
a matching backend file, call `UpdateTransfer` with the reported byte
count and the status mapped from the backend's compound state string
by ordered substring rules. -/

/-- Go `strings.Contains` on character lists. -/
def containsList (hay needle : List Char) : Bool :=
  needle.isPrefixOf hay ||
    match hay with
    | [] => false
    | _ :: t => containsList t needle

/-- Go `strings.Contains`. -/
def containsStr (s sub : String) : Bool := containsList s.data sub.data

theorem containsList_iff (hay needle : List Char) :
    containsList hay needle = true ↔ needle <:+: hay := by
  induction hay with
  | nil =>
    unfold containsList
    simp [ List.isPrefixOf_iff_prefix]
  | cons a t ih =>
    unfold containsList
    rw [List.infix_cons_iff]
    simp [ List.isPrefixOf_iff_prefix, ih]

/-- The ordered substring rules of `syncOnce` mapping a backend state
string to an internal status. -/
def mapState (state : String) : Status :=
  if containsStr state "Completed" && containsStr state "Succeeded" then Status.completed
  else if containsStr state "Completed" then Status.failed
  else if containsStr state "InProgress" then Status.downloading
  else Status.queued

/-- C6: the reconciler's state mapping follows the ordered substring
rules — Completed together with Succeeded maps to Completed; Completed
without Succeeded maps to Failed; otherwise InProgress maps to
Downloading; anything else maps to Queued.  Stated through the
substring relation on the underlying character lists. -/
theorem C6_mapState (st : String) :
    (mapState st = Status.completed ↔
      ("Completed".data <:+: st.data ∧ "Succeeded".data <:+: st.data)) ∧
    (mapState st = Status.failed ↔
      ("Completed".data <:+: st.data ∧ ¬ "Succeeded".data <:+: st.data)) ∧
    (mapState st = Status.downloading ↔
      (¬ "Completed".data <:+: st.data ∧ "InProgress".data <:+: st.data)) ∧
    (mapState st = Status.queued ↔
      (¬ "Completed".data <:+: st.data ∧ ¬ "InProgress".data <:+: st.data)) := by
  unfold mapState containsStr
  by_cases h1 : "Completed".data <:+: st.data <;>
    by_cases h2 : "Succeeded".data <:+: st.data <;>
      by_cases h3 : "InProgress".data <:+: st.data <;>
        simp [containsList_iff, h1, h2, h3]

/-- C6 witness: the mapping evaluated on a backend state string of
each class. -/
theorem C6_mapState_witness :
    mapState "Completed, Succeeded" = Status.completed ∧
    mapState "Completed, Errored" = Status.failed ∧
    mapState "InProgress" = Status.downloading ∧
    mapState "Queued, Remotely" = Status.queued := by
  refine ⟨(C6_mapState "Completed, Succeeded").1.mpr ⟨by decide, by decide⟩,
    (C6_mapState "Completed, Errored").2.1.mpr ⟨by decide, by decide⟩,
    (C6_mapState "InProgress").2.2.1.mpr ⟨by decide, by decide⟩,
    (C6_mapState "Queued, Remotely").2.2.2.mpr ⟨by decide, by decide⟩⟩

/-- A download transfer as reported by slskd (`slskd.Transfer`).  The
Go struct has a float64 `AverageSpeed` field, modelled as a rational;
it plays no role in the reconciliation. -/
structure Transfer where
  id : String
  username : String
  direction : String
  filename : String
  size : Int
  bytesTransferred : Int
  averageSpeed : ℚ
  state : String

structure DirectoryTransferGroup where
  directory : String
  files : List Transfer

structure UserTransferGroup where
  username : String
  directories : List DirectoryTransferGroup

/-- The lookup `syncOnce` builds from the snapshot: keyed by
`(group username, file name)`, later files overwriting earlier ones,
as iterated Go map insertion does. -/
def buildTransferMap (groups : List UserTransferGroup) : String × String → Option Transfer :=
  groups.foldl (fun m g =>
    g.directories.foldl (fun m d =>
      d.files.foldl (fun m t =>
        fun k => if k = (g.username, t.filename) then some t else m k) m) m)
    (fun _ => none)

/-- One iteration of the update loop of `syncOnce`: skip terminal
entries, skip entries with no matching backend file, otherwise update
with the reported bytes and the mapped status. -/
def syncStep (lookup : String × String → Option Transfer) (now : Nat)
    (s : Store) (dl : Download) : Store :=
  if dl.status = Status.completed ∨ dl.status = Status.failed then s
  else
    match lookup (dl.username, dl.filename) with
    | none => s
    | some t => updateTransfer s dl.id t.bytesTransferred (mapState t.state) now

/-- `syncOnce`: iterate the update loop over the snapshot of tracked
entries taken at the start of the pass (`Store.All`). -/
def syncOnce (groups : List UserTransferGroup) (s : Store) (now : Nat) : Store :=
  (allDownloads s).foldl (syncStep (buildTransferMap groups) now) s

/-- C7: a reconciliation pass never modifies an entry that is already
terminal (Completed or Failed), and never modifies an entry whose
`(username, filename)` key has no match in the backend snapshot: such
an entry is found afterwards with every field unchanged.  (Entry ids
are pairwise distinct in every state the Go map can hold.) -/
theorem C7_syncOnce_frame (groups : List UserTransferGroup) (s : Store) (now : Nat)
    (dl : Download)
    (hnodup : (s.map (fun e => e.id)).Nodup)
    (h : s.find? (fun e => e.id == dl.id) = some dl)
    (hcond : dl.status = Status.completed ∨ dl.status = Status.failed ∨
      buildTransferMap groups (dl.username, dl.filename) = none) :
    (syncOnce groups s now).find? (fun e => e.id == dl.id) = some dl := by
  have hdlmem : dl ∈ s := List.mem_of_find?_eq_some h
  have key : ∀ (l : List Download) (st : Store), (∀ x ∈ l, x ∈ s) →
      st.find? (fun e => e.id == dl.id) = some dl →
      (l.foldl (syncStep (buildTransferMap groups) now) st).find?
        (fun e => e.id == dl.id) = some dl := by
    intro l
    induction l with
    | nil => exact fun st _ hst => hst
    | cons x xs ih =>
      intro st hmem hst
      rw [List.foldl_cons]
      refine ih _ (fun y hy => hmem y (List.mem_cons_of_mem x hy)) ?_
      unfold syncStep
      by_cases hterm : x.status = Status.completed ∨ x.status = Status.failed
      · rw [if_pos hterm]
        exact hst
      · rw [if_neg hterm]
        by_cases hix : x.id = dl.id
        · have hxmem : x ∈ s := hmem x (List.mem_cons_self x xs)
          have hxdl : x = dl :=
            List.inj_on_of_nodup_map hnodup hxmem hdlmem (by rw [hix])
          rcases hcond with hc | hc | hc
          · rw [hxdl] at hterm
            exact absurd (Or.inl hc) hterm
          · rw [hxdl] at hterm
            exact absurd (Or.inr hc) hterm
          · rw [hxdl, hc]
            exact hst
        · cases hlk : buildTransferMap groups (x.username, x.filename) with
          | none => exact hst
          | some t =>
            try dsimp only
            unfold updateTransfer
            rw [find?_map_of_id_preserving st dl.id _ (by
              intro e
              try dsimp only
              by_cases he : e.id = x.id
              · rw [if_pos he]
                by_cases hc2 : (mapState t.state = Status.completed ∨
                    mapState t.state = Status.failed) ∧ e.completedAt = none
                · rw [if_pos hc2]
                · rw [if_neg hc2]
              · rw [if_neg he]), hst, Option.map_some',
              if_neg (fun hdx => hix (hdx.symm))]
  unfold syncOnce allDownloads
  exact key s s (fun x hx => hx) h

/-- The one-entry registry of the C7 witness: a Completed entry. -/
def syncScnStore : Store := [{retryScnD with status := Status.completed}]

/-- C7 witness: an empty snapshot leaves a terminal entry untouched. -/
theorem C7_syncOnce_frame_witness :
    (syncOnce [] syncScnStore 0).find?
      (fun e => e.id == ({retryScnD with status := Status.completed} : Download).id) =
      some {retryScnD with status := Status.completed} :=
  C7_syncOnce_frame [] syncScnStore 0 _ (by decide) (by decide) (Or.inl (by decide))

/-! ## The adaptive poll delay (`slskd/client.go`)

`adaptiveDelay` works on Go `float64`; every constant involved (16,
-16, 5, 0.5, 0, 1, and the claim's sample points) is exactly
representable in binary floating point and the claimed sample
evaluations incur no rounding, so the function is modelled on exact
rationals.  `SearchAndWait` arms its first poll timer with a fixed 2
seconds (`time.NewTimer(2 * time.Second)`) and computes
`progress = min(fileCount / 10000, 1)` for the later delays; the
real-time ordering of the polls themselves is outside the model. -/

/-- `adaptiveDelay`, in seconds: the quadratic `a p² + b p + c` with
the source's constants `a = 16`, `b = -16`, `c = 5` inlined, clamped
to `[0.5, 5]` by `math.Max(0.5, math.Min(5.0, s))`. -/
def adaptiveDelaySeconds (progress : ℚ) : ℚ :=
  max (1 / 2) (min 5 (16 * progress ^ 2 + (-16) * progress + 5))

/-- The fixed delay before the first poll of `SearchAndWait`. -/
def initialPollDelaySeconds : ℚ := 2

/-- The file cap used for the progress fraction, matching the
`fileLimit` sent in the search request. -/
def searchFileLimit : Nat := 10000

/-- The polling progress fraction of `SearchAndWait`. -/
def searchProgress (fileCount : Nat) : ℚ :=
  min ((fileCount : ℚ) / (searchFileLimit : ℚ)) 1

/-- C8: the poll delay is the quadratic `16 p² − 16 p + 5` clamped to
`[0.5, 5]`; in particular it is 5 s at progress 0, 1 s at progress
`1/2` and 5 s at progress 1; and the first poll timer of
`SearchAndWait` is armed with a fixed 2-second delay. -/
theorem C8_adaptiveDelay :
    (∀ p : ℚ, adaptiveDelaySeconds p = max (1 / 2) (min 5 (16 * p ^ 2 - 16 * p + 5))) ∧
    adaptiveDelaySeconds 0 = 5 ∧
    adaptiveDelaySeconds (1 / 2) = 1 ∧
    adaptiveDelaySeconds 1 = 5 ∧
    initialPollDelaySeconds = 2 := by
  refine ⟨?_, ?_, ?_, ?_, rfl⟩
  · intro p
    unfold adaptiveDelaySeconds
    rw [show (16 : ℚ) * p ^ 2 + (-16) * p + 5 = 16 * p ^ 2 - 16 * p + 5 from by ring]
  · unfold adaptiveDelaySeconds
    rw [show (16 : ℚ) * 0 ^ 2 + (-16) * 0 + 5 = 5 from by norm_num, min_self]
    exact max_eq_right (by norm_num)
  · unfold adaptiveDelaySeconds
    rw [show (16 : ℚ) * (1 / 2) ^ 2 + (-16) * (1 / 2) + 5 = 1 from by norm_num]
    rw [min_eq_right (by norm_num)]
    exact max_eq_right (by norm_num)
  · unfold adaptiveDelaySeconds
    rw [show (16 : ℚ) * 1 ^ 2 + (-16) * 1 + 5 = 5 from by norm_num, min_self]
    exact max_eq_right (by norm_num)

end Slskrr
